import Mathlib

/-!
Verification development for the go.trade session engine.

The repository fragment under study ships the `Execution` wire record
(execution.go, declaration order preserved from the vendor API) and the
engine's test suite (engine_test.go).  The session engine itself — wire
codec, connection state machine, request-id allocator, subscription
registry, reader loop and facade — is exercised by those tests but its
source is not part of the fragment, so those components are modelled
here from the specification and the claims are settled against the
model.  The test helper `expect` is translated directly from
engine_test.go.
-/

namespace GoTrade

/-! ## Decimal ASCII text for numeric fields

The wire protocol transmits numeric fields as decimal ASCII text
(spec 4.1).  Digit extraction is written with explicit fuel so every
definition is structural and kernel-reducible. -/

/-- Little-endian base-10 digits of `n`, with explicit fuel; `digitsFuel n n`
computes the digits of `n` (empty for `n = 0`). -/
def digitsFuel : Nat → Nat → List Nat
  | 0, _ => []
  | fuel + 1, n => if n = 0 then [] else n % 10 :: digitsFuel fuel (n / 10)

/-- Value of a little-endian base-10 digit list. -/
def digitsVal : List Nat → Nat
  | [] => 0
  | d :: ds => d + 10 * digitsVal ds

/-- The ASCII character of one decimal digit. -/
def digitChar (d : Nat) : Char := Char.ofNat (48 + d)

/-- The decimal digit denoted by one ASCII character. -/
def charDigit (c : Char) : Nat := c.toNat - 48

/-- Decimal text of a natural number, most significant digit first. -/
def natToString (n : Nat) : String :=
  if n = 0 then "0" else String.mk (((digitsFuel n n).map digitChar).reverse)

/-- Parse decimal text to a natural number: the text must be nonempty and
all characters must be digits. -/
def charsToNat (cs : List Char) : Option Nat :=
  if cs.isEmpty then none
  else if cs.all Char.isDigit then some (digitsVal ((cs.map charDigit).reverse))
  else none

/-- Decimal text of an integer: optional leading minus sign, then digits. -/
def intToString (i : Int) : String :=
  if i < 0 then String.mk ('-' :: (natToString i.natAbs).data)
  else natToString i.natAbs

/-- Parse decimal integer text: optional leading minus sign, then digits. -/
def charsToInt (cs : List Char) : Option Int :=
  match cs with
  | [] => none
  | c :: rest =>
    if c = '-' then (charsToNat rest).map (fun n => -(n : Int))
    else (charsToNat (c :: rest)).map (fun n => (n : Int))

/-- Modelled from the spec: floating-point field values (the codec source is
absent from the fragment).  A float is carried as a decimal significand and a
decimal exponent, transmitted in scientific notation `<significand>e<exponent>`,
which is decimal ASCII text as spec 4.1 requires. -/
def floatToString (m : Int) (ex : Int) : String :=
  String.mk ((intToString m).data ++ 'e' :: (intToString ex).data)

/-- Split a character list at the first occurrence of `sep`: returns the
segment before it and, when `sep` occurs, the remainder after it. -/
def splitAtChar (sep : Char) : List Char → List Char × Option (List Char)
  | [] => ([], none)
  | c :: cs =>
    if c = sep then ([], some cs)
    else
      let r := splitAtChar sep cs
      (c :: r.1, r.2)

/-- Parse scientific-notation float text back to significand and exponent. -/
def charsToFloat (cs : List Char) : Option (Int × Int) :=
  match splitAtChar 'e' cs with
  | (_, none) => none
  | (mcs, some ecs) =>
    match charsToInt mcs, charsToInt ecs with
    | some m, some ex => some (m, ex)
    | _, _ => none

/-! ## Typed fields and messages

Field kinds follow the `Execution` record of execution.go: strings,
64-bit integers, floating-point values and timestamps. -/

/-- The type of one declared message field. -/
inductive FieldType
  | tString
  | tInt
  | tFloat
  | tTime
deriving DecidableEq

/-- A logical field value.  `vUnset` is the unset/sentinel value the decoder
produces for an empty (or otherwise non-numeric) numeric field, which the
spec requires it to tolerate rather than error on. -/
inductive FieldValue
  | vString (s : String)
  | vInt (i : Int)
  | vFloat (mantissa : Int) (exponent : Int)
  | vTime (t : Int)
  | vUnset
deriving DecidableEq

/-- Modelled from the spec: field serialization of the absent wire codec.
Each field is written as its decimal ASCII text (strings verbatim,
timestamps as Unix seconds); an unset field is written empty. -/
def encodeField : FieldValue → String
  | .vString s => s
  | .vInt i => intToString i
  | .vFloat m ex => floatToString m ex
  | .vTime t => intToString t
  | .vUnset => ""

/-- Modelled from the spec: field parsing of the absent wire codec.  The
schema supplies the field type positionally; numeric text that does not
parse (in particular the empty string) yields the unset sentinel, since the
spec's only decode-failure conditions are a short payload and an
unrecognized tag. -/
def decodeField : FieldType → String → FieldValue
  | .tString, s => .vString s
  | .tInt, s =>
    match charsToInt s.data with
    | some i => .vInt i
    | none => .vUnset
  | .tFloat, s =>
    match charsToFloat s.data with
    | some p => .vFloat p.1 p.2
    | none => .vUnset
  | .tTime, s =>
    match charsToInt s.data with
    | some t => .vTime t
    | none => .vUnset

/-- Does a populated field value inhabit the declared field type? -/
def typeMatches : FieldValue → FieldType → Bool
  | .vString _, .tString => true
  | .vInt _, .tInt => true
  | .vFloat _ _, .tFloat => true
  | .vTime _, .tTime => true
  | _, _ => false

/-- The NUL byte terminating every wire field. -/
def nulChar : Char := Char.ofNat 0

/-- Well-formedness of one field value for the wire: string contents carry
no field terminator and stay within one byte per character. -/
def fieldWf : FieldValue → Bool
  | .vString s => s.data.all fun c => decide (c ≠ nulChar) && decide (c.toNat < 256)
  | _ => true

/-- A wire message: numeric type tag plus its ordered list of field values. -/
structure Message where
  tag : Nat
  fields : List FieldValue
deriving DecidableEq

/-- A per-version message schema table: negotiated protocol version and
numeric tag select the declared field layout, or `none` for an
unrecognized tag. -/
abbrev Schema := Nat → Nat → Option (List FieldType)

/-- Do the fields of a message match a declared layout pointwise? -/
def fieldsMatch : List FieldValue → List FieldType → Bool
  | [], [] => true
  | v :: vs, t :: ts => typeMatches v t && fieldsMatch vs ts
  | _, _ => false

/-! ## Payload codec -/

/-- Modelled from the spec: payload serialization of the absent wire codec —
the numeric type tag followed by each declared field in declaration order. -/
def encodePayload (m : Message) : List String :=
  natToString m.tag :: m.fields.map encodeField

/-- Outbound encoding failure: a required field is unset with no default. -/
inductive EncodingError
  | requiredFieldUnset
deriving DecidableEq

/-- Modelled from the spec: `Encode`'s failure behaviour of the absent wire
codec — encoding a message with an unset required field fails with
`EncodingError`; otherwise the payload fields are produced. -/
def encodeMessage (m : Message) : Except EncodingError (List String) :=
  if FieldValue.vUnset ∈ m.fields then .error .requiredFieldUnset
  else .ok (encodePayload m)

/-- Inbound decoding failure.  An unrecognized leading tag surfaces the raw
tag text and the remaining fields for diagnostic logging. -/
inductive DecodingError
  | unknownTag (raw : String) (rest : List String)
  | shortPayload (need got : Nat)
  | truncatedFrame
deriving DecidableEq

/-- Consume fields positionally according to the declared layout. -/
def decodeFields (fts : List FieldType) (ss : List String) : List FieldValue :=
  List.zipWith decodeField fts ss

/-- Look up the leading tag text in the schema table for the negotiated
version; `none` when the text is not numeric or the tag is unknown. -/
def tagLookup (sch : Schema) (ver : Nat) (raw : String) : Option (Nat × List FieldType) :=
  match charsToNat raw.data with
  | none => none
  | some tag =>
    match sch ver tag with
    | none => none
    | some fts => some (tag, fts)

/-- Modelled from the spec: payload parsing of the absent wire codec.  Reads
the leading numeric tag to select the variant for the negotiated version,
then consumes fields positionally; fails when the tag is unrecognized
(surfacing the raw tag and the remaining fields) or the payload is shorter
than the variant's required field count. -/
def decodePayload (sch : Schema) (ver : Nat) (ss : List String) : Except DecodingError Message :=
  match ss with
  | [] => .error (.shortPayload 1 0)
  | raw :: rest =>
    match tagLookup sch ver raw with
    | none => .error (.unknownTag raw rest)
    | some tf =>
      if rest.length < tf.2.length then .error (.shortPayload tf.2.length rest.length)
      else .ok ⟨tf.1, decodeFields tf.2 (rest.take tf.2.length)⟩

/-! ## Frames

A frame is an unsigned 32-bit big-endian length followed by exactly that
many payload bytes; the payload is a sequence of fields each terminated
by a single NUL byte (spec 3). -/

/-- Join field texts into the payload character sequence, terminating each
field with NUL. -/
def joinFields (fs : List String) : List Char :=
  fs.foldr (fun s acc => s.data ++ nulChar :: acc) []

/-- Split a payload into its NUL-terminated fields, with explicit fuel. -/
def splitFieldsFuel : Nat → List Char → List String
  | 0, _ => []
  | fuel + 1, cs =>
    match splitAtChar nulChar cs with
    | (_, none) => []
    | (f, some rest) => String.mk f :: splitFieldsFuel fuel rest

/-- Split a payload into its NUL-terminated fields. -/
def splitFields (cs : List Char) : List String := splitFieldsFuel cs.length cs

/-- Big-endian 4-byte encoding of a 32-bit length. -/
def be32 (n : Nat) : List Nat :=
  [n / 16777216 % 256, n / 65536 % 256, n / 256 % 256, n % 256]

/-- Payload bytes of a field list (one byte per character). -/
def payloadBytes (fs : List String) : List Nat :=
  (joinFields fs).map Char.toNat

/-- A full frame: 4-byte big-endian length header, then the payload bytes. -/
def frameBytes (fs : List String) : List Nat :=
  be32 (payloadBytes fs).length ++ payloadBytes fs

/-- Read one frame off a byte stream: the length header, then exactly that
many payload bytes; `none` when the stream is too short. -/
def readFrame (bs : List Nat) : Option (List Nat × List Nat) :=
  match bs with
  | b0 :: b1 :: b2 :: b3 :: rest =>
    let n := ((b0 * 256 + b1) * 256 + b2) * 256 + b3
    if n ≤ rest.length then some (rest.take n, rest.drop n) else none
  | _ => none

/-- Modelled from the spec: `Encode` of the absent wire codec — serialize the
message fields and wrap them with the 4-byte length header. -/
def Encode (m : Message) : Except EncodingError (List Nat) :=
  (encodeMessage m).map frameBytes

/-- Modelled from the spec: `Decode` of the absent wire codec — read the
length header and exactly that many payload bytes, split on the field
terminator, then parse positionally using the negotiated version's schema. -/
def Decode (sch : Schema) (ver : Nat) (bs : List Nat) : Except DecodingError Message :=
  match readFrame bs with
  | none => .error .truncatedFrame
  | some pr => decodePayload sch ver (splitFields (pr.1.map Char.ofNat))

/-- A fully-populated valid outbound message for a schema and version: the
tag is declared, the fields match the declared layout pointwise, every
field is wire-well-formed, and the payload fits the 32-bit length header. -/
def MsgWf (sch : Schema) (ver : Nat) (m : Message) : Bool :=
  match sch ver m.tag with
  | none => false
  | some fts =>
    fieldsMatch m.fields fts && m.fields.all fieldWf &&
      decide ((payloadBytes (encodePayload m)).length < 4294967296)

/-! ## The concrete schema instance

The `Execution` record of execution.go, declaration order preserved:
OrderId, ClientId, ExecId, Time, AccountCode, Exchange, Side, Shares,
Price, PermId, Liquidation, CumQty, AveragePrice, OrderRef, EVRule,
EVMultiplier. -/

/-- Field layout of the `Execution` record (execution.go), in declaration
order. -/
def executionSchema : List FieldType :=
  [.tInt, .tInt, .tString, .tTime, .tString, .tString, .tString, .tInt,
   .tFloat, .tInt, .tInt, .tInt, .tFloat, .tString, .tString, .tFloat]

/-- Modelled from the spec: the per-version schema table of the absent
message catalogue, instantiated with the execution-data message carrying the
`Execution` record; later protocol versions append the EVRule and
EVMultiplier fields. -/
def tradeSchema : Schema := fun ver tag =>
  if tag = 11 then
    some (if 40 ≤ ver then executionSchema else executionSchema.take 14)
  else none

/-! ## Connection state machine

Modelled from the spec (section 4.3): the connection state machine source
is absent from the fragment; the test suite observes it through
`State()`, `SubscribeState` and `FatalError()`. -/

/-- Lifecycle state of one engine.  Constructor names follow the constants
the test suite reads (`EngineReady`, `EngineExitNormal`). -/
inductive EngineState
  | EngineConnecting
  | EngineReady
  | EngineExitNormal
  | EngineExitError
deriving DecidableEq

/-- Is a state terminal?  ExitNormal and ExitError are; Connecting and
Ready are not. -/
def EngineState.terminal : EngineState → Bool
  | .EngineExitNormal => true
  | .EngineExitError => true
  | _ => false

/-- Position of a state in the lifecycle order
Connecting before Ready before the exit states. -/
def EngineState.rank : EngineState → Nat
  | .EngineConnecting => 0
  | .EngineReady => 1
  | .EngineExitNormal => 2
  | .EngineExitError => 2

/-- The connection-fatal error recorded by a failure-driven transition. -/
inductive EngineError
  | handshakeFailed
  | ioFailed
  | decodeThresholdExceeded
deriving DecidableEq

/-- An event the connection state machine reacts to. -/
inductive EngineEvent
  | handshakeOk
  | handshakeFail
  | stopCalled
  | ioFail
  | decodeOverflow
deriving DecidableEq

/-- Modelled from the spec: the transition table of the absent connection
state machine (spec 4.3).  `none` means the event causes no transition —
in particular every event is ignored in a terminal state, which is what
makes `Stop()` on an already-terminal engine a no-op. -/
def stepState : EngineState → EngineEvent → Option EngineState
  | .EngineConnecting, .handshakeOk => some .EngineReady
  | .EngineConnecting, .handshakeFail => some .EngineExitError
  | .EngineReady, .stopCalled => some .EngineExitNormal
  | .EngineReady, .ioFail => some .EngineExitError
  | .EngineReady, .decodeOverflow => some .EngineExitError
  | _, _ => none

/-- The fatal error an event carries when it is failure-driven. -/
def EngineEvent.failure : EngineEvent → Option EngineError
  | .handshakeFail => some .handshakeFailed
  | .ioFail => some .ioFailed
  | .decodeOverflow => some .decodeThresholdExceeded
  | _ => none

/-- The lifecycle-owning core of an engine: its state and the at-most-once
fatal error. -/
structure EngineCore where
  state : EngineState
  fatal : Option EngineError
deriving DecidableEq

/-- Modelled from the spec: one reaction of the absent connection state
machine.  A transition moves to the new state and records the fatal error
when the transition is failure-driven and none is recorded yet; an ignored
event leaves the core untouched. -/
def stepCore (e : EngineCore) (ev : EngineEvent) : EngineCore :=
  match stepState e.state ev with
  | none => e
  | some s =>
    { state := s,
      fatal :=
        match e.fatal with
        | some f => some f
        | none => ev.failure }

/-- Run the state machine over a sequence of events. -/
def runCore (e : EngineCore) : List EngineEvent → EngineCore
  | [] => e
  | ev :: evs => runCore (stepCore e ev) evs

/-- The core of a freshly constructed engine, before the handshake. -/
def EngineCore.start : EngineCore := ⟨.EngineConnecting, none⟩

/-! ## Engine facade -/

/-- The engine facade: lifecycle core plus the values negotiated at
handshake time (server version, client id, server time), as read by the
test suite (`engine.client`, `engine.serverTime`). -/
structure Engine where
  core : EngineCore
  serverVersion : Nat
  client : Int
  serverTime : Int
deriving DecidableEq

/-- Point-in-time state read, as the test suite's `engine.State()`. -/
def Engine.State (e : Engine) : EngineState := e.core.state

/-- Point-in-time fatal-error read, `nil` until set. -/
def Engine.FatalError (e : Engine) : Option EngineError := e.core.fatal

/-- Modelled from the spec: `Stop()` of the absent facade — drives the
stop-called transition; on an already-terminal engine the event is ignored,
so the call is a no-op, not an error. -/
def Engine.Stop (e : Engine) : Engine := { e with core := stepCore e.core .stopCalled }

/-- The handshake reply: negotiated version, assigned client id, current
server time (Unix seconds; `0` models an absent/unparsed time). -/
structure HandshakeReply where
  version : Nat
  clientId : Int
  serverTime : Int
deriving DecidableEq

/-- Client configuration: the supported protocol version range offered in
the handshake preamble. -/
structure Config where
  minVersion : Nat
  maxVersion : Nat
deriving DecidableEq

/-- Modelled from the spec: `NewEngine` of the absent facade — runs the
handshake synchronously and returns only once Ready, or returns the
handshake error.  `reply` is the server's handshake response (`none` for a
socket/negotiation failure); the engine is declared Ready only once the
response is fully parsed, with a version inside the supported range and a
present (non-zero) server time. -/
def NewEngine (cfg : Config) (reply : Option HandshakeReply) : Except EngineError Engine :=
  match reply with
  | none => .error .handshakeFailed
  | some r =>
    if cfg.minVersion ≤ r.version ∧ r.version ≤ cfg.maxVersion ∧ r.serverTime ≠ 0 then
      .ok { core := stepCore EngineCore.start .handshakeOk,
            serverVersion := r.version, client := r.clientId, serverTime := r.serverTime }
    else .error .handshakeFailed

/-! ## Request-id allocator -/

/-- State of the request-id allocator: the last id handed out. -/
structure ReqIdState where
  counter : Int
deriving DecidableEq

/-- Modelled from the spec: `NextRequestId` of the absent allocator — an
atomic monotonic counter returning a fresh id strictly greater than every
previously returned id. -/
def NextRequestId (a : ReqIdState) : Int × ReqIdState := (a.counter + 1, ⟨a.counter + 1⟩)

/-- Allocator state at connection start, so the first id handed out is 1. -/
def ReqIdState.start : ReqIdState := ⟨0⟩

/-- The ids produced by `k` successive `NextRequestId` calls. -/
def requestIds (a : ReqIdState) : Nat → List Int
  | 0 => []
  | k + 1 =>
    let r := NextRequestId a
    r.1 :: requestIds r.2 k

/-! ## Subscription registry -/

/-- A delivery endpoint, held abstractly by its identity; the registry only
stores references to endpoints owned by the calling collaborator. -/
abbrev Endpoint := Nat

/-- A dispatch key: a request id or the reserved state/broadcast key. -/
abbrev SubKey := Int

/-- Modelled from the spec: the absent subscription registry — the mapping
from dispatch key to currently registered delivery endpoints, kept as the
ordered list of (key, endpoint) registrations. -/
structure Registry where
  subs : List (SubKey × Endpoint)
deriving DecidableEq

/-- Modelled from the spec: `Subscribe` of the absent registry — registers
the endpoint for the key, appending for fan-out; duplicate (key, endpoint)
pairs are not admitted. -/
def Registry.Subscribe (r : Registry) (ep : Endpoint) (key : SubKey) : Registry :=
  if (key, ep) ∈ r.subs then r else ⟨r.subs ++ [(key, ep)]⟩

/-- Modelled from the spec: `Unsubscribe` of the absent registry — removes
the (key, endpoint) pair, a no-op when absent. -/
def Registry.Unsubscribe (r : Registry) (ep : Endpoint) (key : SubKey) : Registry :=
  ⟨r.subs.filter fun p => decide (p ≠ (key, ep))⟩

/-- The endpoints currently registered for a key, in registration order. -/
def Registry.endpoints (r : Registry) (key : SubKey) : List Endpoint :=
  r.subs.filterMap fun p => if p.1 = key then some p.2 else none

/-- Modelled from the spec: `Dispatch` of the absent registry — delivers the
message to every endpoint currently registered for the key; with no
subscribers the message is dropped (no deliveries, no error). -/
def Registry.Dispatch (r : Registry) (key : SubKey) (m : Message) : List (Endpoint × Message) :=
  (r.endpoints key).map fun ep => (ep, m)

/-! ## Send -/

/-- Error returned by a facade call. -/
inductive SendError
  | NotReadyError
  | EncodingFailed (e : EncodingError)
  | IOFailed
deriving DecidableEq

/-- Modelled from the spec: `Send` of the absent facade — legal in the Ready
state only; otherwise it fails with `NotReadyError` at once.  When Ready it
encodes the request (failing with the encoding error) and performs one
synchronous transport write, whose failure (`writeOk = false`) surfaces as
the I/O error. -/
def Send (core : EngineCore) (m : Message) (writeOk : Bool) : Except SendError Unit :=
  if core.state = .EngineReady then
    match encodeMessage m with
    | .error e => .error (.EncodingFailed e)
    | .ok _ => if writeOk then .ok () else .error .IOFailed
  else .error .NotReadyError

/-- Modelled from the spec: the facade's `Subscribe` pass-through — after a
terminal state it returns `NotReadyError` immediately rather than hanging. -/
def SubscribeCall (core : EngineCore) (r : Registry) (ep : Endpoint) (key : SubKey) :
    Except SendError Registry :=
  if core.state = .EngineReady then .ok (r.Subscribe ep key) else .error .NotReadyError

/-! ## Reader loop -/

/-- The reader loop's own state: the lifecycle core it drives and the count
of consecutive decode failures. -/
structure ReaderState where
  core : EngineCore
  badStreak : Nat
deriving DecidableEq

/-- One observation of the reader loop: a complete frame (already split
into its fields) or a transport read failure. -/
inductive ReadEvent
  | frame (ss : List String)
  | readError
deriving DecidableEq

/-- Modelled from the spec: one iteration of the absent reader loop.  A
transport read error is connection-fatal.  A frame that fails to decode is
dropped (no deliveries) and counted; the connection is unaffected unless
the consecutive-failure threshold `thr` is exceeded.  A decoded message
resets the failure count and is handed to the registry for dispatch under
its owning key. -/
def readerStep (sch : Schema) (ver thr : Nat) (keyOf : Message → SubKey) (reg : Registry)
    (rs : ReaderState) : ReadEvent → ReaderState × List (Endpoint × Message)
  | .readError => (⟨stepCore rs.core .ioFail, rs.badStreak⟩, [])
  | .frame ss =>
    match decodePayload sch ver ss with
    | .error _ =>
      if thr < rs.badStreak + 1 then (⟨stepCore rs.core .decodeOverflow, rs.badStreak + 1⟩, [])
      else (⟨rs.core, rs.badStreak + 1⟩, [])
    | .ok m => (⟨rs.core, 0⟩, reg.Dispatch (keyOf m) m)

/-- A payload shorter than the selected variant requires: either no fields
at all, or fewer fields after the tag than the variant's declared count. -/
def payloadTooShort (sch : Schema) (ver : Nat) (ss : List String) : Prop :=
  ss = [] ∨ ∃ raw rest tf, ss = raw :: rest ∧ tagLookup sch ver raw = some tf ∧
    rest.length < tf.2.length

/-- An unrecognized leading tag: the tag text is not numeric, or no variant
is declared for it at the negotiated version. -/
def tagUnrecognized (sch : Schema) (ver : Nat) (ss : List String) : Prop :=
  ∃ raw rest, ss = raw :: rest ∧ tagLookup sch ver raw = none

/-! ## The test helper `expect` (engine_test.go)

`expect` loops over a `select` between a fresh per-iteration timeout and
the subscription channel, so each received reply restarts the timeout.
One loop iteration is abstracted as one `ExpectEvent`: either the timeout
fired with no reply, or a reply arrived first. -/

/-- A reply as `expect` sees it: the Go `Reply` interface observed through
its `code()` method. -/
structure Reply where
  code : Int
deriving DecidableEq

/-- The numeric id of an incoming message kind. -/
abbrev IncomingMessageId := Int

/-- One iteration's outcome of the `select` in `expect`. -/
inductive ExpectEvent
  | timeout
  | recv (r : Reply)
deriving DecidableEq

/-- How a run of `expect` ends.  `ok` is `return v, nil`; `timedOut` is the
`Timeout waiting` error return; `fatalUnknown` is the `t.Fatalf` abort on a
reply with code 0; `pending` means the observed event trace ended with the
loop still running. -/
inductive ExpectOutcome
  | ok (r : Reply)
  | timedOut
  | fatalUnknown (r : Reply)
  | pending
deriving DecidableEq

/-- The loop of `Engine.expect` (engine_test.go): on a timeout return the
timeout error; on a reply, abort if its code is 0, return it if its code is
in `expected`, otherwise log and keep waiting. -/
def expectRun (expected : List IncomingMessageId) : List ExpectEvent → ExpectOutcome
  | [] => .pending
  | .timeout :: _ => .timedOut
  | .recv v :: rest =>
    if v.code = 0 then .fatalUnknown v
    else if v.code ∈ expected then .ok v
    else expectRun expected rest

/-- An event `expect` skips past: a reply whose code is non-zero but not in
the expected set (it is only logged). -/
def skippable (expected : List IncomingMessageId) (e : ExpectEvent) : Prop :=
  ∃ r, e = .recv r ∧ r.code ≠ 0 ∧ r.code ∉ expected

/-! ## Concrete values for witnesses -/

/-- A concrete execution-data message (all sixteen `Execution` fields). -/
def exMsg : Message :=
  ⟨11,
   [.vInt 7, .vInt 2, .vString "0001.01", .vTime 1700000000, .vString "DU12345",
    .vString "IDEALPRO", .vString "BOT", .vInt 100, .vFloat 123 (-2), .vInt 5,
    .vInt 0, .vInt 100, .vFloat 123 (-2), .vString "", .vString "ref", .vFloat 10 (-1)]⟩

/-- A concrete client configuration. -/
def cfgEx : Config := ⟨38, 45⟩

/-- A concrete successful handshake reply. -/
def replyEx : HandshakeReply := ⟨40, 1, 1700000000⟩

/-- The engine `NewEngine` builds from `cfgEx` and `replyEx`. -/
def engEx : Engine :=
  { core := ⟨.EngineReady, none⟩, serverVersion := 40, client := 1, serverTime := 1700000000 }

/-- A minimal concrete message for registry and send witnesses. -/
def msgA : Message := ⟨1, []⟩

/-! # Helper lemmas -/

theorem stringDataMk (l : List Char) : (String.mk l).data = l := rfl

theorem stringMkData (s : String) : String.mk s.data = s := by cases s; rfl

theorem digitsVal_digitsFuel : ∀ fuel n, n ≤ fuel → digitsVal (digitsFuel fuel n) = n := by
  intro fuel
  induction fuel with
  | zero => intro n h; interval_cases n; rfl
  | succ f ih =>
    intro n h
    by_cases h0 : n = 0
    · subst h0; simp [digitsFuel, digitsVal]
    · rw [digitsFuel.eq_def]
      simp only [h0, if_false]
      rw [digitsVal, ih (n / 10) (by omega)]
      omega

theorem digitsFuel_lt_ten : ∀ fuel n d, d ∈ digitsFuel fuel n → d < 10 := by
  intro fuel
  induction fuel with
  | zero => intro n d h; simp [digitsFuel] at h
  | succ f ih =>
    intro n d h
    rw [digitsFuel.eq_def] at h
    by_cases h0 : n = 0
    · simp [h0] at h
    · simp only [h0, if_false, List.mem_cons] at h
      rcases h with h | h
      · omega
      · exact ih _ _ h

theorem digitsFuel_ne_nil (n : Nat) (h : 0 < n) : digitsFuel n n ≠ [] := by
  cases n with
  | zero => omega
  | succ k => simp [digitsFuel]

theorem digitChar_facts :
    ∀ d, d < 10 → charDigit (digitChar d) = d ∧ (digitChar d).isDigit = true ∧
      digitChar d ≠ nulChar ∧ digitChar d ≠ '-' ∧ digitChar d ≠ 'e' ∧
      (digitChar d).toNat < 256 := by
  decide

theorem natToString_all_digit (n : Nat) : ∀ c ∈ (natToString n).data, c.isDigit = true := by
  intro c hc
  by_cases h0 : n = 0
  · rw [natToString, if_pos h0] at hc
    have : c = '0' := by simpa using hc
    subst this; decide
  · rw [natToString, if_neg h0, stringDataMk, List.mem_reverse] at hc
    rcases List.mem_map.mp hc with ⟨d, hd, rfl⟩
    exact (digitChar_facts d (digitsFuel_lt_ten _ _ _ hd)).2.1

theorem natToString_chars_plain (n : Nat) :
    ∀ c ∈ (natToString n).data, c ≠ nulChar ∧ c ≠ 'e' ∧ c ≠ '-' ∧ c.toNat < 256 := by
  intro c hc
  by_cases h0 : n = 0
  · rw [natToString, if_pos h0] at hc
    have : c = '0' := by simpa using hc
    subst this; refine ⟨by decide, by decide, by decide, by decide⟩
  · rw [natToString, if_neg h0, stringDataMk, List.mem_reverse] at hc
    rcases List.mem_map.mp hc with ⟨d, hd, rfl⟩
    have := digitChar_facts d (digitsFuel_lt_ten _ _ _ hd)
    exact ⟨this.2.2.1, this.2.2.2.2.1, this.2.2.2.1, this.2.2.2.2.2⟩

theorem natToString_ne_nil (n : Nat) : (natToString n).data ≠ [] := by
  by_cases h0 : n = 0
  · rw [natToString, if_pos h0]; decide
  · rw [natToString, if_neg h0, stringDataMk]
    simp only [ne_eq, List.reverse_eq_nil_iff, List.map_eq_nil_iff]
    exact digitsFuel_ne_nil n (Nat.pos_of_ne_zero h0)

theorem charsToNat_natToString (n : Nat) : charsToNat (natToString n).data = some n := by
  by_cases h0 : n = 0
  · subst h0; decide
  · have hne : ((natToString n).data).isEmpty = false := by
      rcases hd : (natToString n).data with _ | ⟨c, cs⟩
      · exact absurd hd (natToString_ne_nil n)
      · rfl
    have hdig : ((natToString n).data).all Char.isDigit = true := by
      rw [List.all_eq_true]
      intro c hc
      exact natToString_all_digit n c hc
    rw [charsToNat, hne, hdig]
    simp only [Bool.false_eq_true, if_false, if_true]
    rw [natToString, if_neg h0, stringDataMk]
    rw [← List.map_reverse, List.reverse_reverse, List.map_map]
    have hid : ∀ d ∈ digitsFuel n n, (charDigit ∘ digitChar) d = id d := fun d hd =>
      (digitChar_facts d (digitsFuel_lt_ten _ _ _ hd)).1
    rw [List.map_congr_left hid, List.map_id]
    rw [digitsVal_digitsFuel n n le_rfl]

theorem charsToInt_intToString (i : Int) : charsToInt (intToString i).data = some i := by
  by_cases hneg : i < 0
  · rw [intToString, if_pos hneg, stringDataMk]
    have h1 : charsToInt ('-' :: (natToString i.natAbs).data)
        = (charsToNat (natToString i.natAbs).data).map (fun n => -(n : Int)) := by
      simp [charsToInt]
    rw [h1, charsToNat_natToString]
    show some (-(i.natAbs : Int)) = some i
    congr 1
    omega
  · rw [intToString, if_neg hneg]
    rcases hd : (natToString i.natAbs).data with _ | ⟨c, rest⟩
    · exact absurd hd (natToString_ne_nil _)
    · have hcdig : c.isDigit = true :=
        natToString_all_digit _ c (by rw [hd]; exact List.mem_cons_self _ _)
      have hcne : c ≠ '-' := by
        intro h; rw [h] at hcdig; exact absurd hcdig (by decide)
      have h1 : charsToInt (c :: rest)
          = (charsToNat (c :: rest)).map (fun n => (n : Int)) := by
        simp [charsToInt, hcne]
      rw [h1, ← hd, charsToNat_natToString]
      show some ((i.natAbs : Int)) = some i
      congr 1
      omega

theorem intToString_chars_plain (i : Int) :
    ∀ c ∈ (intToString i).data, c ≠ nulChar ∧ c ≠ 'e' ∧ c.toNat < 256 := by
  intro c hc
  by_cases hneg : i < 0
  · rw [intToString, if_pos hneg, stringDataMk, List.mem_cons] at hc
    rcases hc with rfl | hc
    · exact ⟨by decide, by decide, by decide⟩
    · have := natToString_chars_plain i.natAbs c hc
      exact ⟨this.1, this.2.1, this.2.2.2⟩
  · rw [intToString, if_neg hneg] at hc
    have := natToString_chars_plain i.natAbs c hc
    exact ⟨this.1, this.2.1, this.2.2.2⟩

theorem splitAtChar_append (sep : Char) (xs ys : List Char) (h : ∀ c ∈ xs, c ≠ sep) :
    splitAtChar sep (xs ++ sep :: ys) = (xs, some ys) := by
  induction xs with
  | nil => simp [splitAtChar]
  | cons c cs ih =>
    have hc : c ≠ sep := h c (List.mem_cons_self _ _)
    have hrest := ih (fun a ha => h a (List.mem_cons_of_mem _ ha))
    simp [splitAtChar, hc, List.append_eq, hrest]

theorem charsToFloat_floatToString (m ex : Int) :
    charsToFloat (floatToString m ex).data = some (m, ex) := by
  rw [floatToString, stringDataMk, charsToFloat]
  rw [splitAtChar_append 'e' _ _ (fun c hc => (intToString_chars_plain m c hc).2.1)]
  simp [charsToInt_intToString]

theorem decodeField_encodeField (v : FieldValue) (t : FieldType)
    (h : typeMatches v t = true) : decodeField t (encodeField v) = v := by
  cases v <;> cases t <;>
    simp_all [typeMatches, decodeField, encodeField,
      charsToInt_intToString, charsToFloat_floatToString]

theorem decodeFields_encode (vs : List FieldValue) (ts : List FieldType)
    (h : fieldsMatch vs ts = true) : decodeFields ts (vs.map encodeField) = vs := by
  induction vs generalizing ts with
  | nil =>
    cases ts with
    | nil => rfl
    | cons t ts' => simp [fieldsMatch] at h
  | cons v vs' ih =>
    cases ts with
    | nil => simp [fieldsMatch] at h
    | cons t ts' =>
      simp only [fieldsMatch, Bool.and_eq_true] at h
      simp only [List.map_cons, decodeFields, List.zipWith_cons_cons]
      rw [decodeField_encodeField v t h.1]
      have := ih ts' h.2
      rw [decodeFields] at this
      rw [this]

theorem fieldsMatch_length (vs : List FieldValue) (ts : List FieldType)
    (h : fieldsMatch vs ts = true) : vs.length = ts.length := by
  induction vs generalizing ts with
  | nil => cases ts with
    | nil => rfl
    | cons t ts' => simp [fieldsMatch] at h
  | cons v vs' ih =>
    cases ts with
    | nil => simp [fieldsMatch] at h
    | cons t ts' =>
      simp only [fieldsMatch, Bool.and_eq_true] at h
      simp [ih ts' h.2]

theorem fieldsMatch_no_unset (vs : List FieldValue) (ts : List FieldType)
    (h : fieldsMatch vs ts = true) : FieldValue.vUnset ∉ vs := by
  induction vs generalizing ts with
  | nil => simp
  | cons v vs' ih =>
    cases ts with
    | nil => simp [fieldsMatch] at h
    | cons t ts' =>
      simp only [fieldsMatch, Bool.and_eq_true] at h
      intro hmem
      rcases List.mem_cons.mp hmem with rfl | hmem
      · cases t <;> simp [typeMatches] at h
      · exact ih ts' h.2 hmem

theorem encodeField_no_nul (v : FieldValue) (h : fieldWf v = true) :
    ∀ c ∈ (encodeField v).data, c ≠ nulChar := by
  cases v with
  | vString s =>
    intro c hc
    rw [fieldWf, List.all_eq_true] at h
    have := h c hc
    simp only [Bool.and_eq_true, decide_eq_true_eq] at this
    exact this.1
  | vInt i => exact fun c hc => (intToString_chars_plain i c hc).1
  | vFloat m ex =>
    intro c hc
    rw [encodeField, floatToString, stringDataMk, List.mem_append, List.mem_cons] at hc
    rcases hc with hc | rfl | hc
    · exact (intToString_chars_plain m c hc).1
    · decide
    · exact (intToString_chars_plain ex c hc).1
  | vTime t => exact fun c hc => (intToString_chars_plain t c hc).1
  | vUnset => intro c hc; simp [encodeField] at hc

theorem splitFieldsFuel_nil (fuel : Nat) : splitFieldsFuel fuel [] = [] := by
  cases fuel <;> simp [splitFieldsFuel, splitAtChar]

theorem splitFieldsFuel_joinFields :
    ∀ fs fuel, (∀ s ∈ fs, ∀ c ∈ s.data, c ≠ nulChar) →
      (joinFields fs).length ≤ fuel → splitFieldsFuel fuel (joinFields fs) = fs := by
  intro fs
  induction fs with
  | nil =>
    intro fuel _ _
    exact splitFieldsFuel_nil fuel
  | cons s rest ih =>
    intro fuel h hlen
    have hj : joinFields (s :: rest) = s.data ++ nulChar :: joinFields rest := rfl
    rw [hj] at hlen ⊢
    cases fuel with
    | zero => simp at hlen
    | succ f =>
      have hsplit := splitAtChar_append nulChar s.data (joinFields rest)
        (h s (List.mem_cons_self _ _))
      have hlen' : (joinFields rest).length ≤ f := by
        simp only [List.length_append, List.length_cons] at hlen
        omega
      have hrec := ih f (fun t ht => h t (List.mem_cons_of_mem _ ht)) hlen'
      simp only [splitFieldsFuel, hsplit, hrec, stringMkData]

theorem splitFields_joinFields (fs : List String)
    (h : ∀ s ∈ fs, ∀ c ∈ s.data, c ≠ nulChar) :
    splitFields (joinFields fs) = fs :=
  splitFieldsFuel_joinFields fs _ h le_rfl

theorem readFrame_frameBytes (fs : List String)
    (h : (payloadBytes fs).length < 4294967296) :
    readFrame (frameBytes fs) = some (payloadBytes fs, []) := by
  rw [frameBytes, be32]
  simp only [List.cons_append, List.nil_append, readFrame]
  have hn : (((payloadBytes fs).length / 16777216 % 256 * 256 +
      (payloadBytes fs).length / 65536 % 256) * 256 +
      (payloadBytes fs).length / 256 % 256) * 256 +
      (payloadBytes fs).length % 256 = (payloadBytes fs).length := by
    omega
  rw [hn]
  rw [if_pos le_rfl]
  rw [List.take_length, List.drop_length]

/-! # Claims -/

/-- Claim C1: for every schema table, every supported protocol version and
every valid fully-populated message (each variant, such as the execution
record, carrying its fixed, ordered list of typed fields), decoding the
encoding succeeds and yields a message field-equal to the original: the
round trip preserves every logical field value exactly. -/
theorem c1_decode_encode_roundtrip (sch : Schema) (ver : Nat) (m : Message)
    (h : MsgWf sch ver m = true) :
    ∃ bs, Encode m = Except.ok bs ∧ Decode sch ver bs = Except.ok m := by
  obtain ⟨tag, fields⟩ := m
  rcases hsch : sch ver tag with _ | fts
  · rw [MsgWf] at h
    simp only [hsch] at h
    cases h
  · rw [MsgWf] at h
    simp only [hsch, Bool.and_eq_true, decide_eq_true_eq] at h
    obtain ⟨⟨hmatch, hwf⟩, hlen⟩ := h
    have hnoU : FieldValue.vUnset ∉ (Message.mk tag fields).fields :=
      fieldsMatch_no_unset _ _ hmatch
    have henc : encodeMessage ⟨tag, fields⟩ = Except.ok (encodePayload ⟨tag, fields⟩) := by
      rw [encodeMessage, if_neg hnoU]
    refine ⟨frameBytes (encodePayload ⟨tag, fields⟩), ?_, ?_⟩
    · rw [Encode, henc]
      rfl
    · have hnul : ∀ s ∈ encodePayload ⟨tag, fields⟩, ∀ c ∈ s.data, c ≠ nulChar := by
        intro s hs
        rcases List.mem_cons.mp hs with rfl | hs
        · exact fun c hc => (natToString_chars_plain tag c hc).1
        · rcases List.mem_map.mp hs with ⟨v, hv, rfl⟩
          have hwfv : fieldWf v = true := by
            rw [List.all_eq_true] at hwf
            exact hwf v hv
          exact encodeField_no_nul v hwfv
      have hchars : (payloadBytes (encodePayload ⟨tag, fields⟩)).map Char.ofNat
          = joinFields (encodePayload ⟨tag, fields⟩) := by
        rw [payloadBytes, List.map_map]
        have hid : ∀ c ∈ joinFields (encodePayload ⟨tag, fields⟩),
            (Char.ofNat ∘ Char.toNat) c = id c := fun c _ => Char.ofNat_toNat c
        rw [List.map_congr_left hid, List.map_id]
      have htag : tagLookup sch ver (natToString tag) = some (tag, fts) := by
        rw [tagLookup, charsToNat_natToString]
        simp only [hsch]
      have hflen : (fields.map encodeField).length = fts.length := by
        rw [List.length_map]
        exact fieldsMatch_length _ _ hmatch
      have hnotlt : ¬ (fields.map encodeField).length < fts.length := by omega
      have hdec : decodePayload sch ver (encodePayload ⟨tag, fields⟩)
          = Except.ok ⟨tag, fields⟩ := by
        have hpay : encodePayload ⟨tag, fields⟩
            = natToString tag :: fields.map encodeField := rfl
        rw [hpay]
        simp only [decodePayload, htag, hnotlt, if_false]
        rw [← hflen, List.take_length]
        rw [decodeFields_encode fields fts hmatch]
      rw [Decode.eq_def]
      rw [readFrame_frameBytes _ hlen]
      simp only []
      rw [hchars, splitFields_joinFields _ hnul, hdec]

/-- Claim C1 witness: the round trip evaluated at a concrete execution-data
message under the concrete schema table at version 40. -/
theorem c1_witness :
    ∃ bs, Encode exMsg = Except.ok bs ∧ Decode tradeSchema 40 bs = Except.ok exMsg :=
  c1_decode_encode_roundtrip tradeSchema 40 exMsg (by decide)

/-! ## State-machine helper lemmas -/

theorem stepCore_terminal (e : EngineCore) (ev : EngineEvent)
    (h : e.state.terminal = true) : stepCore e ev = e := by
  have hs : stepState e.state ev = none := by
    rcases e with ⟨s, f⟩
    cases s <;> cases ev <;> simp_all [stepState, EngineState.terminal]
  rw [stepCore, hs]

theorem runCore_terminal (e : EngineCore) (evs : List EngineEvent)
    (h : e.state.terminal = true) : runCore e evs = e := by
  induction evs generalizing e with
  | nil => rfl
  | cons ev evs ih =>
    rw [runCore, stepCore_terminal e ev h]
    exact ih e h

theorem stepCore_fatal_some (e : EngineCore) (ev : EngineEvent) (f : EngineError)
    (h : e.fatal = some f) : (stepCore e ev).fatal = some f := by
  rw [stepCore]
  cases hs : stepState e.state ev with
  | none => exact h
  | some s => simp [h]

theorem runCore_fatal_some (e : EngineCore) (evs : List EngineEvent) (f : EngineError)
    (h : e.fatal = some f) : (runCore e evs).fatal = some f := by
  induction evs generalizing e with
  | nil => exact h
  | cons ev evs ih =>
    rw [runCore]
    exact ih _ (stepCore_fatal_some e ev f h)

/-- Claim C2: engine-state transitions advance strictly along the lifecycle
order Connecting, Ready, exit states (never out of that order); every
transition is one of the four spec edges; ExitNormal and ExitError are
terminal, admitting no transition; and once a terminal state is entered the
observable state never changes again over any further event sequence. -/
theorem c2_state_transitions :
    (∀ (s s' : EngineState) ev, stepState s ev = some s' → s.rank < s'.rank) ∧
    (∀ (s s' : EngineState) ev, stepState s ev = some s' →
      (s = .EngineConnecting ∧ s' = .EngineReady) ∨
      (s = .EngineConnecting ∧ s' = .EngineExitError) ∨
      (s = .EngineReady ∧ s' = .EngineExitNormal) ∨
      (s = .EngineReady ∧ s' = .EngineExitError)) ∧
    (∀ (s : EngineState) ev, s.terminal = true → stepState s ev = none) ∧
    (∀ (e : EngineCore) evs, e.state.terminal = true → (runCore e evs).state = e.state) := by
  refine ⟨?_, ?_, ?_, ?_⟩
  · intro s s' ev h
    cases s <;> cases ev <;> cases s' <;> simp_all [stepState, EngineState.rank]
  · intro s s' ev h
    cases s <;> cases ev <;> simp_all [stepState]
  · intro s ev h
    cases s <;> cases ev <;> simp_all [stepState, EngineState.terminal]
  · intro e evs h
    rw [runCore_terminal e evs h]

/-- Claim C2 witness: the transition facts evaluated at concrete states and
event sequences. -/
theorem c2_witness :
    EngineState.rank .EngineConnecting < EngineState.rank .EngineReady ∧
    stepState .EngineExitNormal .ioFail = none ∧
    (runCore ⟨.EngineExitNormal, none⟩ [.ioFail, .stopCalled]).state = .EngineExitNormal :=
  ⟨c2_state_transitions.1 _ _ .handshakeOk rfl,
   c2_state_transitions.2.2.1 _ .ioFail rfl,
   c2_state_transitions.2.2.2 _ _ rfl⟩

/-- Claim C3: the request-id allocator hands out, from any state, the ids
counter+1, counter+2, …: every id is strictly greater than every earlier
one, the ids are pairwise distinct (never reused), and from the
connection-start state the sequence begins at 1. -/
theorem c3_request_ids :
    (∀ (a : ReqIdState) k,
      requestIds a k = (List.range k).map fun j : Nat => a.counter + (j : Int) + 1) ∧
    (∀ (a : ReqIdState) k, (requestIds a k).Pairwise (· < ·)) ∧
    (∀ (a : ReqIdState) k, (requestIds a k).Nodup) ∧
    (∀ k, (requestIds ReqIdState.start (k + 1)).head? = some 1) := by
  have hmain : ∀ k (a : ReqIdState),
      requestIds a k = (List.range k).map fun j : Nat => a.counter + (j : Int) + 1 := by
    intro k
    induction k with
    | zero => intro a; rfl
    | succ n ih =>
      intro a
      simp only [requestIds, NextRequestId]
      rw [ih ⟨a.counter + 1⟩]
      rw [List.range_succ_eq_map, List.map_cons, List.map_map]
      rw [List.cons_eq_cons]
      refine ⟨by simp, ?_⟩
      refine List.map_congr_left fun j hj => ?_
      show a.counter + 1 + (j : Int) + 1 = a.counter + ((j + 1 : Nat) : Int) + 1
      push_cast
      ring
  have hpw : ∀ (a : ReqIdState) k, (requestIds a k).Pairwise (· < ·) := by
    intro a k
    rw [hmain k a]
    refine List.Pairwise.map _ ?_ (List.pairwise_lt_range k)
    intro x y hxy
    omega
  refine ⟨fun a k => hmain k a, hpw, ?_, ?_⟩
  · intro a k
    exact (hpw a k).imp fun hl => ne_of_lt hl
  · intro k
    simp [requestIds, NextRequestId, ReqIdState.start]

/-- Claim C4: `Dispatch` delivers a message to exactly the endpoints
currently registered for the key — membership in the delivery list is
equivalent to current registration; a key with no subscribers produces no
deliveries (the message is dropped); and after an `Unsubscribe` that
follows a `Subscribe` of the same (endpoint, key) pair, that endpoint
receives no further deliveries for that key. -/
theorem c4_dispatch_exact :
    (∀ (r : Registry) key m ep m',
      (ep, m') ∈ r.Dispatch key m ↔ ep ∈ r.endpoints key ∧ m' = m) ∧
    (∀ (r : Registry) key m, r.endpoints key = [] → r.Dispatch key m = []) ∧
    (∀ (r : Registry) ep key m m',
      (ep, m') ∉ ((r.Subscribe ep key).Unsubscribe ep key).Dispatch key m) := by
  refine ⟨?_, ?_, ?_⟩
  · intro r key m ep m'
    constructor
    · intro h
      rcases List.mem_map.mp h with ⟨e, he, heq⟩
      injection heq with h1 h2
      subst h1
      subst h2
      exact ⟨he, rfl⟩
    · rintro ⟨he, rfl⟩
      exact List.mem_map.mpr ⟨ep, he, rfl⟩
  · intro r key m h
    rw [Registry.Dispatch, h]
    rfl
  · intro r ep key m m' hmem
    simp only [Registry.Dispatch, List.mem_map] at hmem
    rcases hmem with ⟨e, he, heq⟩
    injection heq with h1 h2
    subst h1
    simp only [Registry.endpoints, Registry.Unsubscribe, List.mem_filterMap,
      List.mem_filter, decide_eq_true_eq] at he
    rcases he with ⟨p, ⟨hpmem, hpne⟩, hcond⟩
    by_cases hpk : p.1 = key
    · rw [if_pos hpk] at hcond
      injection hcond with h3
      refine hpne ?_
      rcases p with ⟨pk, pe⟩
      simp_all
    · rw [if_neg hpk] at hcond
      cases hcond

/-- Claim C4 witness: dispatch evaluated at concrete registries. -/
theorem c4_witness :
    ((7, msgA) ∈ (Registry.mk [(42, 7)]).Dispatch 42 msgA ↔
      7 ∈ (Registry.mk [(42, 7)]).endpoints 42 ∧ msgA = msgA) ∧
    (Registry.mk []).Dispatch 42 msgA = [] ∧
    (7, msgA) ∉ (((Registry.mk []).Subscribe 7 42).Unsubscribe 7 42).Dispatch 42 msgA :=
  ⟨c4_dispatch_exact.1 _ _ _ _ _, c4_dispatch_exact.2.1 _ _ _ rfl,
   c4_dispatch_exact.2.2 _ _ _ _ _⟩

/-- Claim C5: whenever `NewEngine` returns an engine rather than an error,
the returned engine is already Ready (the handshake ran synchronously), its
negotiated server time is non-zero, and no fatal error is recorded. -/
theorem c5_new_engine_ready (cfg : Config) (reply : Option HandshakeReply) (e : Engine)
    (h : NewEngine cfg reply = Except.ok e) :
    e.State = .EngineReady ∧ e.serverTime ≠ 0 ∧ e.FatalError = none := by
  rcases reply with _ | r
  · simp [NewEngine] at h
  · rw [NewEngine] at h
    by_cases hc : cfg.minVersion ≤ r.version ∧ r.version ≤ cfg.maxVersion ∧ r.serverTime ≠ 0
    · rw [if_pos hc] at h
      injection h with h1
      subst h1
      exact ⟨rfl, hc.2.2, rfl⟩
    · rw [if_neg hc] at h
      cases h

/-- Claim C5 witness: the successful-connect facts at a concrete
configuration and handshake reply. -/
theorem c5_witness :
    engEx.State = .EngineReady ∧ engEx.serverTime ≠ 0 ∧ engEx.FatalError = none :=
  c5_new_engine_ready cfgEx (some replyEx) engEx rfl

/-- Claim C6: the fatal error is nil until a failure-driven transition sets
it (non-failure events never set it); once set it is immutable over any
further event sequence; a `Stop()`-driven transition from Ready reaches
ExitNormal with the fatal error still nil; and a transport-failure-driven
transition from Ready reaches ExitError with a non-nil fatal error. -/
theorem c6_fatal_once :
    (∀ (e : EngineCore) ev, e.fatal = none → EngineEvent.failure ev = none →
      (stepCore e ev).fatal = none) ∧
    (∀ (e : EngineCore) (f : EngineError) evs, e.fatal = some f →
      (runCore e evs).fatal = some f) ∧
    (∀ e : EngineCore, e.state = .EngineReady → e.fatal = none →
      stepCore e .stopCalled = ⟨.EngineExitNormal, none⟩) ∧
    (∀ e : EngineCore, e.state = .EngineReady → e.fatal = none →
      (stepCore e .ioFail).state = .EngineExitError ∧
      (stepCore e .ioFail).fatal = some .ioFailed) := by
  refine ⟨?_, ?_, ?_, ?_⟩
  · intro e ev h hf
    rcases e with ⟨s, f⟩
    cases s <;> cases ev <;> simp_all [stepCore, stepState, EngineEvent.failure]
  · intro e f evs h
    exact runCore_fatal_some e evs f h
  · intro e hs hf
    rcases e with ⟨s, f⟩
    simp only at hs hf
    subst hs
    subst hf
    rfl
  · intro e hs hf
    rcases e with ⟨s, f⟩
    simp only at hs hf
    subst hs
    subst hf
    exact ⟨rfl, rfl⟩

/-- Claim C6 witness: the fatal-error lifecycle evaluated at concrete
cores, event sequences and events. -/
theorem c6_witness :
    (stepCore ⟨.EngineConnecting, none⟩ .handshakeOk).fatal = none ∧
    (runCore ⟨.EngineExitError, some .ioFailed⟩ [.stopCalled, .ioFail]).fatal
      = some .ioFailed ∧
    stepCore ⟨.EngineReady, none⟩ .stopCalled = ⟨.EngineExitNormal, none⟩ ∧
    ((stepCore ⟨.EngineReady, none⟩ .ioFail).state = .EngineExitError ∧
      (stepCore ⟨.EngineReady, none⟩ .ioFail).fatal = some .ioFailed) :=
  ⟨c6_fatal_once.1 _ .handshakeOk rfl rfl, c6_fatal_once.2.1 _ _ _ rfl,
   c6_fatal_once.2.2.1 _ rfl rfl, c6_fatal_once.2.2.2 _ rfl rfl⟩

/-- Claim C7: `Stop()` is idempotent — on an engine already in a terminal
state it is a no-op leaving every observable engine field unchanged, and in
general a second `Stop()` changes nothing beyond the first. -/
theorem c7_stop_idempotent :
    (∀ e : Engine, e.State.terminal = true → e.Stop = e) ∧
    (∀ e : Engine, e.Stop.Stop = e.Stop) := by
  constructor
  · intro e h
    rw [Engine.Stop, stepCore_terminal e.core .stopCalled h]
  · intro e
    rcases e with ⟨⟨s, f⟩, v, c, t⟩
    cases s <;> cases f <;> rfl

/-- Claim C7 witness: stopping an already-terminal engine changes nothing. -/
theorem c7_witness :
    (Engine.mk ⟨.EngineExitNormal, none⟩ 40 1 5).Stop
      = Engine.mk ⟨.EngineExitNormal, none⟩ 40 1 5 :=
  c7_stop_idempotent.1 _ rfl

/-- Claim C8: `Send` is legal in Ready only — for any engine core whose
state is not Ready (in particular any terminal core) it returns
`NotReadyError` (likewise the facade's `Subscribe`), and for a Ready core
the only outcomes are success, the encoding error, or the I/O error. -/
theorem c8_send_not_ready :
    (∀ (core : EngineCore) m w, core.state ≠ .EngineReady →
      Send core m w = .error .NotReadyError) ∧
    (∀ (core : EngineCore) m w, core.state.terminal = true →
      Send core m w = .error .NotReadyError) ∧
    (∀ (core : EngineCore) r ep key, core.state ≠ .EngineReady →
      SubscribeCall core r ep key = .error .NotReadyError) ∧
    (∀ (core : EngineCore) m w, core.state = .EngineReady →
      Send core m w = .ok () ∨
      Send core m w = .error (.EncodingFailed .requiredFieldUnset) ∨
      Send core m w = .error .IOFailed) := by
  refine ⟨?_, ?_, ?_, ?_⟩
  · intro core m w h
    rw [Send, if_neg h]
  · intro core m w h
    have hne : core.state ≠ .EngineReady := by
      intro hh
      rw [hh] at h
      exact absurd h (by decide)
    rw [Send, if_neg hne]
  · intro core r ep key h
    rw [SubscribeCall, if_neg h]
  · intro core m w h
    rw [Send, if_pos h]
    cases henc : encodeMessage m with
    | error e =>
      cases e
      right
      left
      rfl
    | ok fs =>
      cases w
      · right
        right
        rfl
      · left
        rfl

/-- Claim C8 witness: send and subscribe outcomes at concrete cores. -/
theorem c8_witness :
    Send ⟨.EngineExitNormal, none⟩ msgA true = .error .NotReadyError ∧
    Send ⟨.EngineExitError, some .ioFailed⟩ msgA true = .error .NotReadyError ∧
    SubscribeCall ⟨.EngineConnecting, none⟩ (Registry.mk []) 7 42
      = .error .NotReadyError ∧
    (Send ⟨.EngineReady, none⟩ msgA true = .ok () ∨
      Send ⟨.EngineReady, none⟩ msgA true = .error (.EncodingFailed .requiredFieldUnset) ∨
      Send ⟨.EngineReady, none⟩ msgA true = .error .IOFailed) :=
  ⟨c8_send_not_ready.1 _ _ _ (by decide), c8_send_not_ready.2.1 _ _ _ rfl,
   c8_send_not_ready.2.2.1 _ _ _ _ (by decide), c8_send_not_ready.2.2.2 _ _ _ rfl⟩

/-- Claim C9: payload decoding fails exactly when the payload is shorter
than the selected variant's required field count or the leading tag is
unrecognized, and an unrecognized tag surfaces the raw tag text and the
remaining fields; under the failure threshold a malformed frame is dropped
(no deliveries) with the connection left exactly as it was (in particular
still Ready); a well-formed frame resets the failure streak and dispatches
to the registered endpoints; and the reader leaves the Ready state exactly
on a transport read error or when a decode failure exceeds the
consecutive-failure threshold. -/
theorem c9_decode_failure_handling :
    (∀ (sch : Schema) ver ss,
      (∃ e, decodePayload sch ver ss = Except.error e) ↔
        payloadTooShort sch ver ss ∨ tagUnrecognized sch ver ss) ∧
    (∀ (sch : Schema) ver raw rest, tagLookup sch ver raw = none →
      decodePayload sch ver (raw :: rest) = Except.error (.unknownTag raw rest)) ∧
    (∀ (sch : Schema) ver thr keyOf (reg : Registry) rs ss e,
      rs.core.state = .EngineReady → decodePayload sch ver ss = Except.error e →
      rs.badStreak + 1 ≤ thr →
      readerStep sch ver thr keyOf reg rs (.frame ss) = (⟨rs.core, rs.badStreak + 1⟩, [])) ∧
    (∀ (sch : Schema) ver thr keyOf (reg : Registry) rs ss m,
      decodePayload sch ver ss = Except.ok m →
      readerStep sch ver thr keyOf reg rs (.frame ss)
        = (⟨rs.core, 0⟩, reg.Dispatch (keyOf m) m)) ∧
    (∀ (sch : Schema) ver thr keyOf (reg : Registry) rs ev,
      rs.core.state = .EngineReady →
      ((readerStep sch ver thr keyOf reg rs ev).1.core.state ≠ .EngineReady ↔
        ev = .readError ∨
          ∃ ss e, ev = ReadEvent.frame ss ∧ decodePayload sch ver ss = Except.error e ∧
            thr < rs.badStreak + 1)) := by
  refine ⟨?_, ?_, ?_, ?_, ?_⟩
  · intro sch ver ss
    constructor
    · rintro ⟨e, he⟩
      cases ss with
      | nil => exact Or.inl (Or.inl rfl)
      | cons raw rest =>
        rcases htl : tagLookup sch ver raw with _ | tf
        · exact Or.inr ⟨raw, rest, rfl, htl⟩
        · by_cases hlt : rest.length < tf.2.length
          · exact Or.inl (Or.inr ⟨raw, rest, tf, rfl, htl, hlt⟩)
          · simp [decodePayload, htl, hlt] at he
    · rintro ((rfl | ⟨raw, rest, tf, rfl, htl, hlt⟩) | ⟨raw, rest, rfl, htl⟩)
      · exact ⟨.shortPayload 1 0, rfl⟩
      · refine ⟨.shortPayload tf.2.length rest.length, ?_⟩
        simp [decodePayload, htl, hlt]
      · refine ⟨.unknownTag raw rest, ?_⟩
        simp [decodePayload, htl]
  · intro sch ver raw rest h
    simp [decodePayload, h]
  · intro sch ver thr keyOf reg rs ss e hready herr hle
    simp only [readerStep, herr]
    rw [if_neg (by omega : ¬ thr < rs.badStreak + 1)]
  · intro sch ver thr keyOf reg rs ss m hok
    simp only [readerStep, hok]
  · intro sch ver thr keyOf reg rs ev hready
    cases ev with
    | readError =>
      simp only [readerStep]
      have hst : (stepCore rs.core EngineEvent.ioFail).state = .EngineExitError := by
        simp [stepCore, hready, stepState]
      simp [hst]
    | frame ss =>
      cases hdec : decodePayload sch ver ss with
      | ok m =>
        simp only [readerStep, hdec]
        constructor
        · intro hne
          exact absurd hready hne
        · rintro (h | ⟨ss', e', hss, he, hthr⟩)
          · simp at h
          · injection hss with h1
            subst h1
            rw [hdec] at he
            exact Except.noConfusion he
      | error e =>
        by_cases hthr : thr < rs.badStreak + 1
        · simp only [readerStep, hdec, if_pos hthr]
          have hst : (stepCore rs.core EngineEvent.decodeOverflow).state
              = .EngineExitError := by
            simp [stepCore, hready, stepState]
          constructor
          · intro _
            exact Or.inr ⟨ss, e, rfl, hdec, hthr⟩
          · intro _
            simp [hst]
        · simp only [readerStep, hdec, if_neg hthr]
          constructor
          · intro hne
            exact absurd hready hne
          · rintro (h | ⟨ss', e', hss, he, hthr'⟩)
            · simp at h
            · exact absurd hthr' hthr

/-- Claim C9 witness: decode failure, frame drop and read-error fatality at
concrete payloads and reader states. -/
theorem c9_witness :
    decodePayload tradeSchema 40 [String.mk ['x'], String.mk []]
      = Except.error (DecodingError.unknownTag (String.mk ['x']) [String.mk []]) ∧
    readerStep tradeSchema 40 3 (fun _ => 0) (Registry.mk [])
      ⟨⟨.EngineReady, none⟩, 0⟩ (.frame [])
      = (⟨⟨.EngineReady, none⟩, 1⟩, []) ∧
    (readerStep tradeSchema 40 3 (fun _ => 0) (Registry.mk [])
      ⟨⟨.EngineReady, none⟩, 0⟩ .readError).1.core.state ≠ .EngineReady := by
  refine ⟨?_, ?_, ?_⟩
  · exact c9_decode_failure_handling.2.1 tradeSchema 40 _ _ (by decide)
  · exact c9_decode_failure_handling.2.2.1 tradeSchema 40 3 _ _ _ []
      (.shortPayload 1 0) rfl rfl (by decide)
  · exact (c9_decode_failure_handling.2.2.2.2 tradeSchema 40 3 _ _ _
      .readError rfl).mpr (Or.inl rfl)

/-! ## Lemmas for the `expect` loop -/

theorem expectRun_skip (expected : List IncomingMessageId) :
    ∀ pre evs, (∀ e ∈ pre, skippable expected e) →
      expectRun expected (pre ++ evs) = expectRun expected evs := by
  intro pre
  induction pre with
  | nil => intro evs _; rfl
  | cons e pre ih =>
    intro evs h
    rcases h e (List.mem_cons_self _ _) with ⟨r, rfl, hnz, hnm⟩
    rw [List.cons_append]
    show expectRun expected (ExpectEvent.recv r :: (pre ++ evs)) = expectRun expected evs
    rw [expectRun.eq_def]
    simp only [if_neg hnz, if_neg hnm]
    exact ih evs fun a ha => h a (List.mem_cons_of_mem _ ha)

/-- Claim C10: `expect` returns the first reply whose code is in the
expected set, skipping any earlier reply whose code is non-zero but not
expected; it aborts the test on a reply with code 0; it returns the timeout
error when an iteration's fresh timeout fires with no reply (each received
reply having restarted the timeout); and conversely a timeout return only
arises from a trace of skipped replies followed by such a no-reply
iteration, so the total wait is unbounded while non-matching replies keep
arriving. -/
theorem c10_expect_behaviour :
    (∀ (expected : List IncomingMessageId) pre r rest,
      (∀ e ∈ pre, skippable expected e) → r.code ≠ 0 → r.code ∈ expected →
      expectRun expected (pre ++ .recv r :: rest) = .ok r) ∧
    (∀ (expected : List IncomingMessageId) pre rest,
      (∀ e ∈ pre, skippable expected e) →
      expectRun expected (pre ++ .timeout :: rest) = .timedOut) ∧
    (∀ (expected : List IncomingMessageId) pre r rest,
      (∀ e ∈ pre, skippable expected e) → r.code = 0 →
      expectRun expected (pre ++ .recv r :: rest) = .fatalUnknown r) ∧
    (∀ (expected : List IncomingMessageId) evs, expectRun expected evs = .timedOut →
      ∃ pre rest, evs = pre ++ .timeout :: rest ∧ ∀ e ∈ pre, skippable expected e) := by
  refine ⟨?_, ?_, ?_, ?_⟩
  · intro expected pre r rest h hnz hmem
    rw [expectRun_skip expected pre _ h]
    rw [expectRun.eq_def]
    simp only [if_neg hnz, if_pos hmem]
  · intro expected pre rest h
    rw [expectRun_skip expected pre _ h]
    rfl
  · intro expected pre r rest h hz
    rw [expectRun_skip expected pre _ h]
    rw [expectRun.eq_def]
    simp only [if_pos hz]
  · intro expected evs
    induction evs with
    | nil => intro h; exact absurd h (by simp [expectRun])
    | cons e evs ih =>
      intro h
      cases e with
      | timeout => exact ⟨[], evs, rfl, by simp⟩
      | recv r =>
        by_cases hz : r.code = 0
        · rw [show expectRun expected (.recv r :: evs) = .fatalUnknown r from by
            rw [expectRun.eq_def]; simp only [if_pos hz]] at h
          exact absurd h (by simp)
        · by_cases hm : r.code ∈ expected
          · rw [show expectRun expected (.recv r :: evs) = .ok r from by
              rw [expectRun.eq_def]; simp only [if_neg hz, if_pos hm]] at h
            exact absurd h (by simp)
          · have h' : expectRun expected evs = .timedOut := by
              rw [show expectRun expected (.recv r :: evs) = expectRun expected evs from by
                rw [expectRun.eq_def]; simp only [if_neg hz, if_neg hm]] at h
              exact h
            rcases ih h' with ⟨pre, rest, rfl, hpre⟩
            refine ⟨.recv r :: pre, rest, rfl, ?_⟩
            intro a ha
            rcases List.mem_cons.mp ha with rfl | ha
            · exact ⟨r, rfl, hz, hm⟩
            · exact hpre a ha

/-- Claim C10 witness: the `expect` loop evaluated on concrete reply
traces — a skipped non-matching reply followed by a match, and a skipped
reply followed by a quiet-period timeout. -/
theorem c10_witness :
    expectRun [2] [ExpectEvent.recv ⟨5⟩, ExpectEvent.recv ⟨2⟩] = ExpectOutcome.ok ⟨2⟩ ∧
    expectRun [2] [ExpectEvent.recv ⟨5⟩, ExpectEvent.timeout] = ExpectOutcome.timedOut := by
  have hskip : ∀ e ∈ [ExpectEvent.recv ⟨5⟩], skippable [2] e := by
    intro e he
    rw [List.mem_singleton] at he
    subst he
    exact ⟨⟨5⟩, rfl, by decide, by decide⟩
  exact ⟨c10_expect_behaviour.1 [2] [ExpectEvent.recv ⟨5⟩] ⟨2⟩ [] hskip
      (by decide) (by decide),
    c10_expect_behaviour.2.1 [2] [ExpectEvent.recv ⟨5⟩] [] hskip⟩

end GoTrade
